import Mathlib

/-!
Verification development for the sandbox-agent backend: a Next.js route that
runs a model-driven tool loop against a disposable execution sandbox, with a
hostname safety filter (`isPrivateHostname`), a bounded in-memory trace store
(`agent-traces`), and per-request sandbox lifecycle management.

JavaScript strings are modelled as Lean `String`s; the few string primitives
the code uses (slice, split, startsWith, endsWith, toLowerCase, trim) are
re-implemented here by structural recursion over the character list so that
all definitions evaluate inside the kernel.
-/

namespace SandboxPoc

/-- Model of `Array.prototype.includes` style prefix test on character lists:
`isLeading p l` is true when `p` is an initial segment of `l`. -/
def isLeading : List Char → List Char → Bool
  | [], _ => true
  | _ :: _, [] => false
  | c :: cs, d :: ds => c == d && isLeading cs ds

/-- Model of JavaScript `String.prototype.startsWith`. -/
def jsStartsWith (s pat : String) : Bool :=
  isLeading pat.data s.data

/-- Model of JavaScript `String.prototype.endsWith`. -/
def jsEndsWith (s pat : String) : Bool :=
  isLeading pat.data.reverse s.data.reverse

/-- Model of JavaScript `String.prototype.includes` for a single character. -/
def jsContainsChar (s : String) (c : Char) : Bool :=
  s.data.contains c

/-- ASCII lowercasing of one character, as done by `toLowerCase` on the
hostname characters relevant here. -/
def jsCharToLower (c : Char) : Char :=
  if 65 ≤ c.toNat ∧ c.toNat ≤ 90 then Char.ofNat (c.toNat + 32) else c

/-- Model of JavaScript `String.prototype.toLowerCase`. -/
def jsToLower (s : String) : String :=
  ⟨s.data.map jsCharToLower⟩

/-- Split a character list on a separator character; mirrors
`String.prototype.split` with a one-character separator (and the behaviour of
the anchored regex grouping used in `isPrivateHostname`). -/
def splitOnChar (sep : Char) : List Char → List (List Char)
  | [] => [[]]
  | c :: cs =>
    let rest := splitOnChar sep cs
    if c == sep then [] :: rest
    else
      match rest with
      | [] => [[c]]
      | g :: gs => (c :: g) :: gs

/-- A nonempty all-decimal-digit group: model of the regex group `(\d+)`. -/
def isDigitGroup (l : List Char) : Bool :=
  !l.isEmpty && l.all Char.isDigit

/-- Decimal value of a digit group, as computed by JavaScript `Number` on a
plain digit string. -/
def digitsVal (l : List Char) : Nat :=
  l.foldl (fun n c => n * 10 + (c.toNat - 48)) 0

/-- Model of the anchored regex match
`hostname.match(/^(\d+)\.(\d+)\.(\d+)\.(\d+)$/)` followed by `.map(Number)`:
returns the four numeric octets when the hostname is exactly four
digit groups separated by dots. -/
def parseDottedQuad (h : String) : Option (Nat × Nat × Nat × Nat) :=
  match splitOnChar '.' h.data with
  | [p1, p2, p3, p4] =>
    if isDigitGroup p1 && isDigitGroup p2 && isDigitGroup p3 && isDigitGroup p4 then
      some (digitsVal p1, digitsVal p2, digitsVal p3, digitsVal p4)
    else none
  | _ => none

/-- The literal hostnames in the route's `PRIVATE_HOSTNAMES` set. -/
def PRIVATE_HOSTNAMES : List String := ["localhost", "0.0.0.0", "::1"]

/-- Model of the route's `isPrivateHostname`, following the source's control
flow: the literal-name set, the `.local` / `.internal` suffix checks, the
dotted-quad octet rules, then the colon (IPv6) lowercased-prefix rules. -/
def isPrivateHostname (hostname : String) : Bool :=
  if hostname ∈ PRIVATE_HOSTNAMES then true
  else if jsEndsWith hostname ".local" = true ∨ jsEndsWith hostname ".internal" = true then true
  else
    let ipv4Hit : Bool :=
      match parseDottedQuad hostname with
      | some (a, b, _, _) =>
        if a = 10 ∨ a = 127 ∨ a = 0 then true
        else if a = 192 ∧ b = 168 then true
        else if a = 172 ∧ 16 ≤ b ∧ b ≤ 31 then true
        else if a = 169 ∧ b = 254 then true
        else false
      | none => false
    if ipv4Hit = true then true
    else if jsContainsChar hostname ':' = true ∧
        (jsStartsWith (jsToLower hostname) "fe80:" = true ∨
         jsStartsWith (jsToLower hostname) "fc" = true ∨
         jsStartsWith (jsToLower hostname) "fd" = true) then true
    else false

/-- Modelled from the spec: the rejection rules of the NetworkSafetyFilter
section, written as the spec states them (literal loopback names, the
`.local` / `.internal` suffixes, the private dotted-quad ranges, and the
colon-bearing names whose lowercase form starts with `fe80:`, `fc` or `fd`),
to be compared with the source-derived `isPrivateHostname`. -/
def specRejectsHostname (h : String) : Bool :=
  decide (h = "localhost") || decide (h = "0.0.0.0") || decide (h = "::1")
  || jsEndsWith h ".local" || jsEndsWith h ".internal"
  || (match parseDottedQuad h with
      | some (a, b, _, _) =>
        decide (a = 10) || decide (a = 127) || decide (a = 0)
        || (decide (a = 192) && decide (b = 168))
        || (decide (a = 169) && decide (b = 254))
        || (decide (a = 172) && decide (16 ≤ b) && decide (b ≤ 31))
      | none => false)
  || (jsContainsChar h ':' &&
      (jsStartsWith (jsToLower h) "fe80:" || jsStartsWith (jsToLower h) "fc" ||
       jsStartsWith (jsToLower h) "fd"))

set_option maxHeartbeats 1000000 in
/-- C2: for every hostname string, `isPrivateHostname` returns true exactly
when one of the spec's rejection rules holds (literal loopback name,
`.local` / `.internal` suffix, private dotted-quad range, or colon-bearing
name whose lowercase form starts with `fe80:`, `fc` or `fd`); every other
hostname is allowed. -/
theorem isPrivateHostname_iff_spec (h : String) :
    isPrivateHostname h = specRejectsHostname h := by
  unfold isPrivateHostname specRejectsHostname
  rcases hq : parseDottedQuad h with _ | ⟨a, b, c, d⟩ <;>
    simp only [hq, PRIVATE_HOSTNAMES, List.mem_cons, List.not_mem_nil, or_false,
      Bool.if_true_left, Bool.decide_or, Bool.decide_and, Bool.decide_eq_true,
      Bool.or_false] <;>
    rw [Bool.eq_iff_iff] <;>
    simp only [Bool.or_eq_true, Bool.and_eq_true, decide_eq_true_eq] <;>
    tauto

/-- C9: the filter matches named hosts case-sensitively — `LOCALHOST` and a
hostname ending in `.LOCAL` are allowed — while the colon branch does
lowercase its input, so `FE80::1` is still rejected. -/
theorem isPrivateHostname_case_sensitive :
    isPrivateHostname "LOCALHOST" = false ∧
    isPrivateHostname "printer.LOCAL" = false ∧
    isPrivateHostname "localhost" = true ∧
    isPrivateHostname "printer.local" = true ∧
    isPrivateHostname "FE80::1" = true := by
  decide

/-! ## Trace store (`src/lib/agent-traces.ts`) -/

/-- A JavaScript value carried as the `input` / `output` payload of a trace
event, abstracted by what the store's `trimIfNeeded` observes of it:
`serialized` is the result of `JSON.stringify` (`none` when serialization
throws or yields undefined) and `strForm` is the best-effort `String(value)`
form. -/
structure Payload where
  serialized : Option String
  strForm : String
deriving DecidableEq

/-- The tagged trace-event union. The parameter is the payload type:
incoming events carry raw `Payload`s, stored events carry either the
untouched payload (`Sum.inl`) or the string that `trimIfNeeded` substituted
for it (`Sum.inr`). -/
inductive TraceEvent (α : Type) where
  | toolCall (toolCallId toolName : String) (input : α) (timestamp : Nat)
  | toolResult (toolCallId toolName : String) (output : α) (timestamp : Nat)
  | toolError (toolCallId toolName : Option String) (errMsg : String) (timestamp : Nat)
  | toolOutputDenied (toolCallId toolName : String) (timestamp : Nat)
deriving DecidableEq

/-- One stored agent trace (`AgentTrace`). -/
structure AgentTrace where
  id : String
  prompt : String
  model : String
  sandboxId : String
  startedAt : Nat
  finishedAt : Option Nat
  events : List (TraceEvent (Payload ⊕ String))
deriving DecidableEq

/-- The store: the `Map` is modelled as an insertion-ordered association
list (JavaScript `Map` preserves insertion order and has unique keys), and
`order` is the explicit insertion-order array kept alongside it. -/
structure TraceStore where
  traces : List (String × AgentTrace)
  order : List String
deriving DecidableEq

def MAX_TRACES : Nat := 25

def MAX_SERIALIZED_LENGTH : Nat := 4000

/-- Lookup in the modelled `Map` (`Map.prototype.get`). -/
def mapGet (m : List (String × AgentTrace)) (k : String) : Option AgentTrace :=
  match m with
  | [] => none
  | (k1, v) :: rest => if k1 = k then some v else mapGet rest k

/-- Insertion in the modelled `Map` (`Map.prototype.set`): replaces the
value in place when the key exists, otherwise appends at the end. -/
def mapSet (m : List (String × AgentTrace)) (k : String) (v : AgentTrace) :
    List (String × AgentTrace) :=
  match m with
  | [] => [(k, v)]
  | (k1, v1) :: rest => if k1 = k then (k, v) :: rest else (k1, v1) :: mapSet rest k v

/-- In-place mutation of the entry a successful `Map.prototype.get`
returned: replaces the first value stored under `k` by `f` of it. -/
def mapUpdate (m : List (String × AgentTrace)) (k : String) (f : AgentTrace → AgentTrace) :
    List (String × AgentTrace) :=
  match m with
  | [] => []
  | (k1, v) :: rest => if k1 = k then (k1, f v) :: rest else (k1, v) :: mapUpdate rest k f

/-- Deletion in the modelled `Map` (`Map.prototype.delete`). -/
def mapDelete (m : List (String × AgentTrace)) (k : String) :
    List (String × AgentTrace) :=
  match m with
  | [] => []
  | (k1, v) :: rest => if k1 = k then rest else (k1, v) :: mapDelete rest k

def emptyStore : TraceStore := ⟨[], []⟩

/-- JavaScript `serialized.slice(0, n)`. -/
def jsSlice (s : String) (n : Nat) : String :=
  ⟨s.data.take n⟩

/-- The truncation marker appended by `trimIfNeeded`. -/
def truncationMarker : String := "... [truncated]"

/-- Model of `trimIfNeeded`: keeps the payload when its serialized form is
within `MAX_SERIALIZED_LENGTH`, substitutes the capped serialized prefix
plus the truncation marker when it is over, and substitutes the
best-effort `String(value)` form when serialization throws. -/
def trimIfNeeded (v : Payload) : Payload ⊕ String :=
  match v.serialized with
  | some s =>
    if s.length ≤ MAX_SERIALIZED_LENGTH then Sum.inl v
    else Sum.inr (jsSlice s MAX_SERIALIZED_LENGTH ++ truncationMarker)
  | none => Sum.inr v.strForm

/-- The `while` loop of `enforceLimit`: while the order array is over
capacity, shift its oldest id and, when that id is truthy (a nonempty
string), delete it from the map. Structurally recursive on the order
array, which strictly shrinks each iteration. -/
def evict (traces : List (String × AgentTrace)) :
    List String → List (String × AgentTrace) × List String
  | [] => (traces, [])
  | oldest :: rest =>
    if MAX_TRACES < (oldest :: rest).length then
      evict (if oldest = "" then traces else mapDelete traces oldest) rest
    else (traces, oldest :: rest)

/-- Model of `startTrace`: registers a fresh in-flight trace under `params.id`,
pushes the id on the order array, and runs `enforceLimit`. `now` is the
`Date.now()` value at the call. -/
def startTrace (st : TraceStore) (id prompt model sandboxId : String) (now : Nat) :
    TraceStore :=
  let trace : AgentTrace := ⟨id, prompt, model, sandboxId, now, none, []⟩
  let traces1 := mapSet st.traces id trace
  let order1 := st.order ++ [id]
  let p := evict traces1 order1
  ⟨p.1, p.2⟩

/-- The stored form of an incoming event, as computed inside
`appendTraceEvent`: the `input` / `output` payload of `tool-call` /
`tool-result` events goes through `trimIfNeeded`; the other event kinds are
stored verbatim. -/
def storedEvent (event : TraceEvent Payload) : TraceEvent (Payload ⊕ String) :=
  match event with
  | .toolCall cid name input ts => .toolCall cid name (trimIfNeeded input) ts
  | .toolResult cid name output ts => .toolResult cid name (trimIfNeeded output) ts
  | .toolError cid name msg ts => .toolError cid name msg ts
  | .toolOutputDenied cid name ts => .toolOutputDenied cid name ts

/-- Model of `appendTraceEvent`: no-op when the id is unknown; otherwise
pushes the stored form of the event on the trace's event list. -/
def appendTraceEvent (st : TraceStore) (traceId : String) (event : TraceEvent Payload) :
    TraceStore :=
  match mapGet st.traces traceId with
  | none => st
  | some _ =>
    ⟨mapUpdate st.traces traceId
      (fun tr => { tr with events := tr.events ++ [storedEvent event] }), st.order⟩

/-- Model of `finishTrace`: no-op when the id is unknown; otherwise assigns
`finishedAt := Date.now()` (the assignment is unconditional in the source). -/
def finishTrace (st : TraceStore) (traceId : String) (now : Nat) : TraceStore :=
  match mapGet st.traces traceId with
  | none => st
  | some _ => ⟨mapUpdate st.traces traceId (fun tr => { tr with finishedAt := some now }), st.order⟩

/-- Model of `getTrace`. -/
def getTrace (st : TraceStore) (traceId : String) : Option AgentTrace :=
  mapGet st.traces traceId

/-- One call into the store's mutating interface. -/
inductive Op where
  | start (id prompt model sandboxId : String) (now : Nat)
  | append (id : String) (event : TraceEvent Payload)
  | finish (id : String) (now : Nat)
deriving DecidableEq

def applyOp (st : TraceStore) : Op → TraceStore
  | .start id prompt model sandboxId now => startTrace st id prompt model sandboxId now
  | .append id e => appendTraceEvent st id e
  | .finish id now => finishTrace st id now

/-- Run a sequence of store calls from a given store state. -/
def runOps (ops : List Op) (st : TraceStore) : TraceStore :=
  ops.foldl applyOp st

/-- The ids passed to `startTrace`, in call order. -/
def startIds (ops : List Op) : List String :=
  ops.filterMap fun op =>
    match op with
    | .start id _ _ _ _ => some id
    | _ => none

/-! ## Association-list lemmas for the modelled `Map` -/

theorem mapGet_eq_none_iff (m : List (String × AgentTrace)) (k : String) :
    mapGet m k = none ↔ k ∉ m.map Prod.fst := by
  induction m with
  | nil => simp [mapGet]
  | cons kv rest ih =>
    obtain ⟨k1, v⟩ := kv
    simp only [mapGet, List.map_cons, List.mem_cons]
    by_cases hk : k1 = k
    · subst hk; simp
    · rw [if_neg hk, ih]
      constructor
      · intro hnm hcon
        rcases hcon with rfl | hm
        · exact hk rfl
        · exact hnm hm
      · intro hcon hm
        exact hcon (Or.inr hm)

theorem mapGet_mapUpdate_self (m : List (String × AgentTrace)) (k : String)
    (f : AgentTrace → AgentTrace) :
    mapGet (mapUpdate m k f) k = (mapGet m k).map f := by
  induction m with
  | nil => simp [mapGet, mapUpdate]
  | cons kv rest ih =>
    obtain ⟨k1, v⟩ := kv
    by_cases hk : k1 = k <;> simp [mapGet, mapUpdate, hk, ih]

theorem mapUpdate_map_fst (m : List (String × AgentTrace)) (k : String)
    (f : AgentTrace → AgentTrace) :
    (mapUpdate m k f).map Prod.fst = m.map Prod.fst := by
  induction m with
  | nil => rfl
  | cons kv rest ih =>
    obtain ⟨k1, v⟩ := kv
    by_cases hk : k1 = k <;> simp [mapUpdate, hk, ih]

theorem mapSet_of_not_mem (m : List (String × AgentTrace)) (k : String) (v : AgentTrace)
    (h : k ∉ m.map Prod.fst) : mapSet m k v = m ++ [(k, v)] := by
  induction m with
  | nil => rfl
  | cons kv rest ih =>
    obtain ⟨k1, v1⟩ := kv
    simp only [List.map_cons, List.mem_cons] at h
    push_neg at h
    simp [mapSet, Ne.symm h.1, ih h.2]

/-- Appending with a known present trace: the stored event lands at the end
of that trace's event list. -/
theorem getTrace_appendTraceEvent (st : TraceStore) (id : String) (e : TraceEvent Payload)
    (tr : AgentTrace) (h : getTrace st id = some tr) :
    getTrace (appendTraceEvent st id e) id =
      some { tr with events := tr.events ++ [storedEvent e] } := by
  unfold getTrace at h
  unfold appendTraceEvent getTrace
  rw [h]
  simp [mapGet_mapUpdate_self, h]

/-- Finishing a known present trace sets its finish timestamp to the
call's `Date.now()` value. -/
theorem getTrace_finishTrace (st : TraceStore) (id : String) (now : Nat)
    (tr : AgentTrace) (h : getTrace st id = some tr) :
    getTrace (finishTrace st id now) id = some { tr with finishedAt := some now } := by
  unfold getTrace at h
  unfold finishTrace getTrace
  rw [h]
  simp [mapGet_mapUpdate_self, h]

theorem jsSlice_length (s : String) (n : Nat) : (jsSlice s n).length = min n s.length := by
  obtain ⟨l⟩ := s
  show (l.take n).length = min n l.length
  exact List.length_take n l

theorem string_length_append (a b : String) : (a ++ b).length = a.length + b.length := by
  obtain ⟨la⟩ := a
  obtain ⟨lb⟩ := b
  show (la ++ lb).length = la.length + lb.length
  exact List.length_append la lb

/-- C5: appending a `tool-result` to an existing trace stores its output
unchanged when the serialized form is within the 4000-character cap,
replaces it by the capped prefix plus the truncation marker (a string of
length at most 4000 plus the marker, ending in the marker) when it is over
the cap, and substitutes the best-effort `String(value)` form when
serialization throws; the same rule applies to `tool-call` inputs, while
`tool-error` and `tool-output-denied` events are stored verbatim. -/
theorem appendTraceEvent_payload_cap (st : TraceStore) (id cid name : String)
    (ocid oname : Option String) (emsg : String) (p : Payload) (ts : Nat)
    (tr : AgentTrace) (h : getTrace st id = some tr) :
    (∀ s, p.serialized = some s → MAX_SERIALIZED_LENGTH < s.length →
      getTrace (appendTraceEvent st id (.toolResult cid name p ts)) id =
        some { tr with events := tr.events ++
          [.toolResult cid name (Sum.inr (jsSlice s MAX_SERIALIZED_LENGTH ++ truncationMarker)) ts] } ∧
      (jsSlice s MAX_SERIALIZED_LENGTH ++ truncationMarker).length ≤
        MAX_SERIALIZED_LENGTH + truncationMarker.length ∧
      ∃ pre, jsSlice s MAX_SERIALIZED_LENGTH ++ truncationMarker = pre ++ truncationMarker) ∧
    (∀ s, p.serialized = some s → s.length ≤ MAX_SERIALIZED_LENGTH →
      getTrace (appendTraceEvent st id (.toolResult cid name p ts)) id =
        some { tr with events := tr.events ++ [.toolResult cid name (Sum.inl p) ts] }) ∧
    (p.serialized = none →
      getTrace (appendTraceEvent st id (.toolResult cid name p ts)) id =
        some { tr with events := tr.events ++ [.toolResult cid name (Sum.inr p.strForm) ts] }) ∧
    (∀ s, p.serialized = some s → MAX_SERIALIZED_LENGTH < s.length →
      getTrace (appendTraceEvent st id (.toolCall cid name p ts)) id =
        some { tr with events := tr.events ++
          [.toolCall cid name (Sum.inr (jsSlice s MAX_SERIALIZED_LENGTH ++ truncationMarker)) ts] }) ∧
    (∀ s, p.serialized = some s → s.length ≤ MAX_SERIALIZED_LENGTH →
      getTrace (appendTraceEvent st id (.toolCall cid name p ts)) id =
        some { tr with events := tr.events ++ [.toolCall cid name (Sum.inl p) ts] }) ∧
    (p.serialized = none →
      getTrace (appendTraceEvent st id (.toolCall cid name p ts)) id =
        some { tr with events := tr.events ++ [.toolCall cid name (Sum.inr p.strForm) ts] }) ∧
    (getTrace (appendTraceEvent st id (.toolError ocid oname emsg ts)) id =
      some { tr with events := tr.events ++ [.toolError ocid oname emsg ts] }) ∧
    (getTrace (appendTraceEvent st id (.toolOutputDenied cid name ts)) id =
      some { tr with events := tr.events ++ [.toolOutputDenied cid name ts] }) := by
  have hover : ∀ s : String, MAX_SERIALIZED_LENGTH < s.length →
      trimIfNeeded ⟨some s, p.strForm⟩ =
        Sum.inr (jsSlice s MAX_SERIALIZED_LENGTH ++ truncationMarker) := by
    intro s hlen
    simp [trimIfNeeded, Nat.not_le.mpr hlen]
  refine ⟨?_, ?_, ?_, ?_, ?_, ?_, ?_, ?_⟩
  · intro s hs hlen
    refine ⟨?_, ?_, ⟨jsSlice s MAX_SERIALIZED_LENGTH, rfl⟩⟩
    · rw [getTrace_appendTraceEvent st id _ tr h]
      simp [storedEvent, trimIfNeeded, hs, Nat.not_le.mpr hlen]
    · rw [string_length_append, jsSlice_length]
      have := min_le_left MAX_SERIALIZED_LENGTH s.length
      omega
  · intro s hs hlen
    rw [getTrace_appendTraceEvent st id _ tr h]
    simp [storedEvent, trimIfNeeded, hs, hlen]
  · intro hnone
    rw [getTrace_appendTraceEvent st id _ tr h]
    simp [storedEvent, trimIfNeeded, hnone]
  · intro s hs hlen
    rw [getTrace_appendTraceEvent st id _ tr h]
    simp [storedEvent, trimIfNeeded, hs, Nat.not_le.mpr hlen]
  · intro s hs hlen
    rw [getTrace_appendTraceEvent st id _ tr h]
    simp [storedEvent, trimIfNeeded, hs, hlen]
  · intro hnone
    rw [getTrace_appendTraceEvent st id _ tr h]
    simp [storedEvent, trimIfNeeded, hnone]
  · rw [getTrace_appendTraceEvent st id _ tr h]
    simp [storedEvent]
  · rw [getTrace_appendTraceEvent st id _ tr h]
    simp [storedEvent]

/-- Witness for `appendTraceEvent_payload_cap` at a concrete store and
payload. -/
theorem appendTraceEvent_payload_cap_witness :
    getTrace (appendTraceEvent (startTrace emptyStore "t" "p" "m" "s" 0) "t"
        (.toolResult "c1" "fetchJson" ⟨some "42", "42"⟩ 7)) "t" =
      some { id := "t", prompt := "p", model := "m", sandboxId := "s", startedAt := 0,
             finishedAt := none,
             events := [.toolResult "c1" "fetchJson" (Sum.inl ⟨some "42", "42"⟩) 7] } :=
  ((appendTraceEvent_payload_cap (startTrace emptyStore "t" "p" "m" "s" 0) "t" "c1" "fetchJson"
      none none "" ⟨some "42", "42"⟩ 7
      ⟨"t", "p", "m", "s", 0, none, []⟩ (by decide)).2.1) "42" rfl (by decide)

/-- A store holding one trace, used to exercise `finishTrace` on concrete
inputs. -/
def oneTraceStore : TraceStore := startTrace emptyStore "t" "p" "m" "s" 0

/-- C6 counterexample: the first `finishTrace` sets the finish timestamp,
but a later `finishTrace` call with a different `Date.now()` value changes
it (the source assigns `trace.finishedAt = Date.now()` unconditionally), so
the finish timestamp is not set at most once. -/
theorem finishTrace_twice_counterexample :
    (getTrace (finishTrace oneTraceStore "t" 1) "t").map (fun u => u.finishedAt) =
      some (some 1) ∧
    (getTrace (finishTrace (finishTrace oneTraceStore "t" 1) "t" 2) "t").map
        (fun u => u.finishedAt) = some (some 2) ∧
    some (some 2) ≠ (some (some 1) : Option (Option Nat)) := by
  decide

/-- C6 amended: `finishTrace` on an existing trace always sets the finish
timestamp to the current `Date.now()` value; a later call therefore
overwrites it with its own timestamp (last write wins) rather than leaving
the first value in place, and the timestamp is never cleared. -/
theorem finishTrace_overwrites (st : TraceStore) (id : String) (t1 t2 : Nat)
    (tr : AgentTrace) (h : getTrace st id = some tr) :
    (getTrace (finishTrace st id t1) id).map (fun u => u.finishedAt) = some (some t1) ∧
    (getTrace (finishTrace (finishTrace st id t1) id t2) id).map (fun u => u.finishedAt) =
      some (some t2) := by
  have h1 := getTrace_finishTrace st id t1 tr h
  have h2 := getTrace_finishTrace (finishTrace st id t1) id t2 _ h1
  rw [h1, h2]
  exact ⟨rfl, rfl⟩

/-- Witness for `finishTrace_overwrites` at a concrete store. -/
theorem finishTrace_overwrites_witness :
    (getTrace (finishTrace oneTraceStore "t" 5) "t").map (fun u => u.finishedAt) =
      some (some 5) :=
  (finishTrace_overwrites oneTraceStore "t" 5 6 ⟨"t", "p", "m", "s", 0, none, []⟩
    (by decide)).1

/-! ## Capacity eviction (`enforceLimit`) invariant -/

theorem mapDelete_cons_self (k : String) (v : AgentTrace) (m : List (String × AgentTrace)) :
    mapDelete ((k, v) :: m) k = m := by
  simp [mapDelete]

theorem evict_of_le (t : List (String × AgentTrace)) (o : List String)
    (h : o.length ≤ MAX_TRACES) : evict t o = (t, o) := by
  cases o with
  | nil => rfl
  | cons x rest =>
    simp only [evict]
    rw [if_neg (Nat.not_lt.mpr h)]

theorem evict_cons (t : List (String × AgentTrace)) (x : String) (rest : List String)
    (h : MAX_TRACES < (x :: rest).length) :
    evict t (x :: rest) = evict (if x = "" then t else mapDelete t x) rest := by
  simp only [evict]
  rw [if_pos h]

/-- The store invariant relative to the list `L` of ids started so far:
the map's keys coincide with the order array, which holds the most recent
`MAX_TRACES` started ids in insertion order. -/
def StoreInv (st : TraceStore) (L : List String) : Prop :=
  st.traces.map Prod.fst = st.order ∧ st.order = L.drop (L.length - MAX_TRACES)

theorem startTrace_inv (st : TraceStore) (L : List String)
    (id prompt model sandboxId : String) (now : Nat)
    (hid : id ∉ L) (hne : ∀ x ∈ L, x ≠ "") (hinv : StoreInv st L) :
    StoreInv (startTrace st id prompt model sandboxId now) (L ++ [id]) := by
  have hM : MAX_TRACES = 25 := rfl
  obtain ⟨hkeys, horder⟩ := hinv
  have hidO : id ∉ st.order := by
    rw [horder]
    exact fun hmem => hid (List.drop_subset _ L hmem)
  have hidK : id ∉ st.traces.map Prod.fst := by rw [hkeys]; exact hidO
  have hset := mapSet_of_not_mem st.traces id ⟨id, prompt, model, sandboxId, now, none, []⟩ hidK
  unfold startTrace
  by_cases hc : L.length < MAX_TRACES
  · have horderlen : st.order.length = L.length := by
      rw [horder, List.length_drop]
      omega
    have hle : (st.order ++ [id]).length ≤ MAX_TRACES := by
      simp only [List.length_append, List.length_singleton, horderlen]
      omega
    simp only [hset, evict_of_le _ _ hle]
    constructor
    · simp [hkeys]
    · rw [horder, Nat.sub_eq_zero_of_le hc.le, List.drop_zero]
      have hz : (L ++ [id]).length - MAX_TRACES = 0 := by
        simp only [List.length_append, List.length_singleton]
        omega
      rw [hz, List.drop_zero]
  · have hMAXle : MAX_TRACES ≤ L.length := Nat.not_lt.mp hc
    have hOlen : st.order.length = MAX_TRACES := by
      rw [horder, List.length_drop]
      omega
    obtain ⟨d, D', hO⟩ : ∃ d D', st.order = d :: D' := by
      cases hOc : st.order with
      | nil => rw [hOc] at hOlen; simp [MAX_TRACES] at hOlen
      | cons d D' => exact ⟨d, D', rfl⟩
    obtain ⟨v0, T', hT⟩ : ∃ v0 T', st.traces = (d, v0) :: T' := by
      cases hTc : st.traces with
      | nil => rw [hTc, hO] at hkeys; simp at hkeys
      | cons kv T' =>
        obtain ⟨k0, v0⟩ := kv
        rw [hTc, hO] at hkeys
        simp only [List.map_cons, List.cons.injEq] at hkeys
        exact ⟨v0, T', by rw [hkeys.1]⟩
    have hT'keys : T'.map Prod.fst = D' := by
      rw [hT, hO] at hkeys
      simpa using hkeys
    have hD'len : D'.length = MAX_TRACES - 1 := by
      rw [hO] at hOlen
      simp only [List.length_cons] at hOlen
      omega
    have hdL : d ∈ L := by
      have hdO : d ∈ st.order := by rw [hO]; exact List.mem_cons_self d D'
      rw [horder] at hdO
      exact List.drop_subset _ L hdO
    have hdne : d ≠ "" := hne d hdL
    have hcons : st.order ++ [id] = d :: (D' ++ [id]) := by rw [hO]; rfl
    have hbig : MAX_TRACES < (d :: (D' ++ [id])).length := by
      simp only [List.length_cons, List.length_append, List.length_singleton]
      omega
    have hrest : (D' ++ [id]).length ≤ MAX_TRACES := by
      simp only [List.length_append, List.length_singleton]
      omega
    have htr : mapSet st.traces id ⟨id, prompt, model, sandboxId, now, none, []⟩ =
        (d, v0) :: (T' ++ [(id, ⟨id, prompt, model, sandboxId, now, none, []⟩)]) := by
      rw [hset, hT]
      rfl
    simp only [htr, hcons, evict_cons _ _ _ hbig, if_neg hdne, mapDelete_cons_self,
      evict_of_le _ _ hrest]
    constructor
    · simp [hT'keys]
    · have hD' : D' = L.drop (L.length - MAX_TRACES + 1) := by
        have htl := congrArg List.tail hO
        rw [horder, List.tail_drop] at htl
        simpa using htl.symm
      have hn : (L ++ [id]).length - MAX_TRACES = L.length - MAX_TRACES + 1 := by
        simp only [List.length_append, List.length_singleton]
        omega
      have hnle : L.length - MAX_TRACES + 1 ≤ L.length := by omega
      rw [hn, List.drop_append_eq_append_drop, Nat.sub_eq_zero_of_le hnle,
        List.drop_zero, ← hD']

theorem appendTraceEvent_inv (st : TraceStore) (L : List String) (id : String)
    (e : TraceEvent Payload) (hinv : StoreInv st L) :
    StoreInv (appendTraceEvent st id e) L := by
  obtain ⟨hkeys, horder⟩ := hinv
  unfold appendTraceEvent
  rcases hget : mapGet st.traces id with _ | tr
  · exact ⟨hkeys, horder⟩
  · exact ⟨by rw [mapUpdate_map_fst]; exact hkeys, horder⟩

theorem finishTrace_inv (st : TraceStore) (L : List String) (id : String) (now : Nat)
    (hinv : StoreInv st L) : StoreInv (finishTrace st id now) L := by
  obtain ⟨hkeys, horder⟩ := hinv
  unfold finishTrace
  rcases hget : mapGet st.traces id with _ | tr
  · exact ⟨hkeys, horder⟩
  · exact ⟨by rw [mapUpdate_map_fst]; exact hkeys, horder⟩

theorem runOps_inv (ops : List Op) (st : TraceStore) (L : List String)
    (hN : (L ++ startIds ops).Nodup) (hne : ∀ x ∈ L ++ startIds ops, x ≠ "")
    (hinv : StoreInv st L) : StoreInv (runOps ops st) (L ++ startIds ops) := by
  induction ops generalizing st L with
  | nil => simpa [runOps, startIds] using hinv
  | cons op rest ih =>
    cases op with
    | start id prompt model sandboxId now =>
      have hS : startIds (Op.start id prompt model sandboxId now :: rest) =
          id :: startIds rest := rfl
      rw [hS] at hN hne
      have hid : id ∉ L := by
        intro hmem
        have hdisj := (List.nodup_append.mp hN).2.2
        exact hdisj hmem (List.mem_cons_self id _)
      have hneL : ∀ x ∈ L, x ≠ "" := fun x hx => hne x (List.mem_append_left _ hx)
      have hstep := startTrace_inv st L id prompt model sandboxId now hid hneL hinv
      have hN' : ((L ++ [id]) ++ startIds rest).Nodup := by
        rw [List.append_assoc]
        simpa using hN
      have hne' : ∀ x ∈ (L ++ [id]) ++ startIds rest, x ≠ "" := by
        intro x hx
        rw [List.append_assoc] at hx
        apply hne
        simpa using hx
      have := ih (startTrace st id prompt model sandboxId now) (L ++ [id]) hN' hne' hstep
      rw [List.append_assoc] at this
      simpa [runOps, hS, List.foldl_cons, applyOp] using this
    | append id e =>
      have hS : startIds (Op.append id e :: rest) = startIds rest := rfl
      rw [hS] at hN hne
      have := ih (appendTraceEvent st id e) L hN hne
        (appendTraceEvent_inv st L id e hinv)
      simpa [runOps, hS, List.foldl_cons, applyOp] using this
    | finish id now =>
      have hS : startIds (Op.finish id now :: rest) = startIds rest := rfl
      rw [hS] at hN hne
      have := ih (finishTrace st id now) L hN hne
        (finishTrace_inv st L id now hinv)
      simpa [runOps, hS, List.foldl_cons, applyOp] using this

/-- A call sequence of 26 distinct `startTrace` ids whose oldest id is the
empty string: `enforceLimit` shifts it from the order array but skips the
map deletion (the `if (oldest)` truthiness guard), so the map keeps it. -/
def evictionCounterOps : List Op :=
  Op.start "" "p" "m" "s" 0 ::
    (List.range MAX_TRACES).map
      (fun i => Op.start (String.mk ('t' :: Nat.toDigits 10 i)) "p" "m" "s" 0)

/-- A call sequence of 26 distinct nonempty `startTrace` ids, used as the
concrete witness input for the amended eviction statements. -/
def evictionWitnessOps : List Op :=
  Op.start "t99" "p" "m" "s" 0 ::
    (List.range MAX_TRACES).map
      (fun i => Op.start (String.mk ('t' :: Nat.toDigits 10 i)) "p" "m" "s" 0)

/-- C4 counterexample: 26 pairwise-distinct start ids whose oldest excess id
is the empty string; `getTrace` still returns that trace (the eviction loop
drops the id from the order array but skips the map deletion for a falsy
id), so `getTrace` is not absent for exactly the oldest excess ids. -/
theorem getTrace_eviction_counterexample :
    (startIds evictionCounterOps).Nodup ∧
    MAX_TRACES < (startIds evictionCounterOps).length ∧
    "" ∈ (startIds evictionCounterOps).take
      ((startIds evictionCounterOps).length - MAX_TRACES) ∧
    getTrace (runOps evictionCounterOps emptyStore) "" ≠ none := by
  decide

/-- C4 amended: for every call sequence whose `startTrace` ids are pairwise
distinct and nonempty, with more than 25 distinct started ids, `getTrace`
returns absent exactly for the oldest excess ids by insertion order and a
trace for each of the 25 most recently started ids. -/
theorem getTrace_evicts_oldest (ops : List Op) (h1 : (startIds ops).Nodup)
    (h2 : ∀ x ∈ startIds ops, x ≠ "") (h3 : MAX_TRACES < (startIds ops).length)
    (id : String) (hid : id ∈ startIds ops) :
    getTrace (runOps ops emptyStore) id = none ↔
      id ∈ (startIds ops).take ((startIds ops).length - MAX_TRACES) := by
  have hinv := runOps_inv ops emptyStore [] (by simpa using h1) (by simpa using h2)
    ⟨rfl, by simp [emptyStore]⟩
  rw [List.nil_append] at hinv
  obtain ⟨hkeys, horder⟩ := hinv
  rw [getTrace, mapGet_eq_none_iff, hkeys, horder]
  have hsplit : (startIds ops).take ((startIds ops).length - MAX_TRACES) ++
      (startIds ops).drop ((startIds ops).length - MAX_TRACES) = startIds ops :=
    List.take_append_drop _ _
  constructor
  · intro hnd
    rcases List.mem_append.mp (by rw [hsplit]; exact hid) with hmem | hmem
    · exact hmem
    · exact absurd hmem hnd
  · intro ht hd
    have hnods : ((startIds ops).take ((startIds ops).length - MAX_TRACES) ++
        (startIds ops).drop ((startIds ops).length - MAX_TRACES)).Nodup := by
      rw [hsplit]; exact h1
    exact (List.nodup_append.mp hnods).2.2 ht hd

/-- Witness for `getTrace_evicts_oldest`: in a 26-start sequence with
nonempty distinct ids, the oldest id has been evicted. -/
theorem getTrace_evicts_oldest_witness :
    getTrace (runOps evictionWitnessOps emptyStore) "t99" = none :=
  (getTrace_evicts_oldest evictionWitnessOps (by decide) (by decide) (by decide)
    "t99" (by decide)).mpr (by decide)

/-- C10 counterexample: with 26 pairwise-distinct start ids whose first id
is the empty string, the map retains 26 entries while the order array holds
25, and the map's key set differs from the order array — the claimed store
invariant fails after the 26th `startTrace`. -/
theorem storeInvariant_counterexample :
    (startIds evictionCounterOps).Nodup ∧
    MAX_TRACES < (runOps evictionCounterOps emptyStore).traces.length ∧
    "" ∈ (runOps evictionCounterOps emptyStore).traces.map Prod.fst ∧
    "" ∉ (runOps evictionCounterOps emptyStore).order := by
  decide

/-- C10 amended: for every call sequence whose `startTrace` ids are pairwise
distinct and nonempty, after every prefix of the operations the map holds at
most 25 entries and its keys are exactly the order array (in particular the
most recently started trace is present right after its start). -/
theorem storeInvariant_holds (ops : List Op) (h1 : (startIds ops).Nodup)
    (h2 : ∀ x ∈ startIds ops, x ≠ "") (k : Nat) :
    (runOps (ops.take k) emptyStore).traces.map Prod.fst =
        (runOps (ops.take k) emptyStore).order ∧
    (runOps (ops.take k) emptyStore).traces.length ≤ MAX_TRACES := by
  have hsub : List.Sublist (startIds (ops.take k)) (startIds ops) :=
    List.Sublist.filterMap _ (List.take_sublist k ops)
  have hN := h1.sublist hsub
  have hne : ∀ x ∈ startIds (ops.take k), x ≠ "" := fun x hx => h2 x (hsub.subset hx)
  have hinv := runOps_inv (ops.take k) emptyStore [] (by simpa using hN)
    (by simpa using hne) ⟨rfl, by simp [emptyStore]⟩
  rw [List.nil_append] at hinv
  obtain ⟨hkeys, horder⟩ := hinv
  refine ⟨hkeys, ?_⟩
  have hlen : (runOps (ops.take k) emptyStore).traces.length =
      (runOps (ops.take k) emptyStore).order.length := by
    rw [← hkeys, List.length_map]
  rw [hlen, horder, List.length_drop]
  omega

/-- Witness for `storeInvariant_holds` on the concrete 26-start sequence. -/
theorem storeInvariant_holds_witness :
    (runOps (evictionWitnessOps.take 26) emptyStore).traces.length ≤ MAX_TRACES :=
  (storeInvariant_holds evictionWitnessOps (by decide) (by decide) 26).2

/-! ## The agent route (`src/app/api/agent/route.ts`) -/

/-- JSON values, as produced by `req.json()` and `JSON.parse`. -/
inductive JsValue where
  | null
  | bool (b : Bool)
  | num (n : Int)
  | str (s : String)
  | arr (elems : List JsValue)
  | obj (fields : List (String × JsValue))

/-- Whitespace for the purposes of `String.prototype.trim`. -/
def isJsWhitespace (c : Char) : Bool :=
  c == ' ' || c == '\t' || c == '\n' || c == '\r' || c == '\x0b' || c == '\x0c'

/-- Model of JavaScript `String.prototype.trim` (zod's `.trim()` transform). -/
def jsTrim (s : String) : String :=
  ⟨((s.data.dropWhile isJsWhitespace).reverse.dropWhile isJsWhitespace).reverse⟩

/-- Field lookup on a JSON object. -/
def lookupField (fields : List (String × JsValue)) (key : String) : Option JsValue :=
  match fields with
  | [] => none
  | (k, v) :: rest => if k = key then some v else lookupField rest key

/-- Model of `requestSchema.safeParse` on the parsed request body (`none`
models `req.json()` rejecting): succeeds with the trimmed prompt exactly
when the body is an object whose `prompt` field is a string that, trimmed,
has 1 to 2000 characters. -/
def parseRequest (body : Option JsValue) : Option String :=
  match body with
  | some (.obj fields) =>
    match lookupField fields "prompt" with
    | some (.str s) =>
      let t := jsTrim s
      if 1 ≤ t.length ∧ t.length ≤ 2000 then some t else none
    | _ => none
  | _ => none

/-- The result of one sandbox command (`runCommand` + `stdout()` /
`stderr()` / `exitCode`). -/
structure CommandResult where
  exitCode : Int
  stdout : String
  stderr : String
deriving DecidableEq

/-- JavaScript `a || b` on strings: the empty string is falsy. -/
def strOrElse (a b : String) : String :=
  if a = "" then b else a

/-- The `node -e code` result handling at the end of `runInSandbox`'s
`execute`: execution-error string on non-zero exit, otherwise trimmed
stdout with the stderr and fixed-message fallbacks. -/
def runNode (result : CommandResult) : String :=
  let stdout := jsTrim result.stdout
  let stderr := jsTrim result.stderr
  if result.exitCode ≠ 0 then
    "Execution error: " ++ strOrElse stderr (strOrElse stdout "unknown error")
  else
    strOrElse stdout (strOrElse stderr "No output produced.")

/-- Model of the `runInSandbox` tool's `execute`, given the backend results
of the three commands it may run (`npm init -y`, `npm install ...`,
`node -e code`): when a nonempty package list is requested
(`packages?.length` is truthy) and the install exits non-zero, returns the
install-failure string; otherwise runs the code and maps its result through
`runNode`. The init result is awaited but never inspected. -/
def runInSandboxExecute (code : String) (packages : Option (List String))
    (npmInitResult npmInstallResult nodeResult : CommandResult) : String :=
  match packages with
  | some (p :: ps) =>
    let installStdErr := jsTrim npmInstallResult.stderr
    if npmInstallResult.exitCode ≠ 0 then
      "Package install failed: " ++ strOrElse installStdErr "unknown error"
    else runNode nodeResult
  | _ => runNode nodeResult

/-- Whether `packages?.length` is truthy: a provided, nonempty package list. -/
def installRequested (packages : Option (List String)) : Bool :=
  match packages with
  | some (_ :: _) => true
  | _ => false

/-- The success value of `fetchJson`. -/
structure FetchResult where
  url : String
  status : Nat
  data : JsValue

/-- What the outside world does with the tool's single `fetch` call: either
the 10-second abort fires, or a response arrives with a status, a body
text, and the result of `JSON.parse` on that text (`none` when parsing
throws). -/
inductive FetchOutcome where
  | timeout
  | response (status : Nat) (bodyText : String) (parsedJson : Option JsValue)

/-- The `Response.ok` flag: status in the 2xx range. -/
def responseOk (status : Nat) : Bool :=
  decide (200 ≤ status) && decide (status ≤ 299)

/-- Model of the route's `fetchJson` helper. A thrown `Error` is an
`Except.error` carrying the error message; the hostname/protocol arguments
model the fields of `new URL(url)`. -/
def fetchJson (protocol hostname href : String) (outcome : FetchOutcome) :
    Except String FetchResult :=
  if ¬(protocol = "http:" ∨ protocol = "https:") then
    Except.error "Only http/https URLs are allowed."
  else if isPrivateHostname hostname = true then
    Except.error "Private or local addresses are not allowed."
  else
    match outcome with
    | .timeout => Except.error "The operation was aborted."
    | .response status bodyText parsedJson =>
      if responseOk status = false then
        Except.error ("Request failed with status " ++ toString status ++ ".")
      else if 200000 < bodyText.length then
        Except.error "Response too large to parse safely."
      else
        match parsedJson with
        | some v => Except.ok ⟨href, status, v⟩
        | none => Except.error "Response was not valid JSON."

/-- The `fetchJson` tool's `execute` is the bare helper: it installs no
catch of its own, so whatever `fetchJson` throws propagates out of the
tool. -/
def fetchJsonToolExecute (protocol hostname href : String) (outcome : FetchOutcome) :
    Except String FetchResult :=
  fetchJson protocol hostname href outcome

/-- One part of the orchestrator's `fullStream`, as far as the route's
stream loop distinguishes them. -/
inductive StreamPart where
  | textDelta (text : String)
  | toolCall (toolCallId toolName : String) (input : Payload)
  | toolResult (toolCallId toolName : String) (output : Payload)
  | toolError (toolCallId toolName : String) (errMsg : String)
  | toolOutputDenied (toolCallId toolName : String)
  | otherPart

/-- The observable actions of one request, in program order. -/
inductive Action where
  | sandboxCreate (ok : Bool)
  | traceStart (id : String)
  | traceAppend (id : String)
  | traceFinish (id : String)
  | streamClose
  | emitText (text : String)
  | sandboxStop
deriving DecidableEq

/-- The HTTP response shape the handler resolves with. -/
structure RouteResponse where
  status : Nat
  errorBody : Option String
  streaming : Bool
deriving DecidableEq

/-- One iteration of the `for await (const part of result.fullStream)`
body: text deltas are enqueued; tool events are mirrored into the trace
store; any other part type is ignored. -/
def processPart (traceId : String) (st : TraceStore) (part : StreamPart) (now : Nat) :
    TraceStore × List Action :=
  match part with
  | .textDelta t => (st, [Action.emitText t])
  | .toolCall cid name input =>
    (appendTraceEvent st traceId (.toolCall cid name input now), [Action.traceAppend traceId])
  | .toolResult cid name output =>
    (appendTraceEvent st traceId (.toolResult cid name output now), [Action.traceAppend traceId])
  | .toolError cid name msg =>
    (appendTraceEvent st traceId (.toolError (some cid) (some name) msg now),
     [Action.traceAppend traceId])
  | .toolOutputDenied cid name =>
    (appendTraceEvent st traceId (.toolOutputDenied cid name now), [Action.traceAppend traceId])
  | .otherPart => (st, [])

/-- The stream loop over the parts actually delivered before the iteration
ends or throws, threading the store and the `Date.now()` clock. -/
def processParts (traceId : String) :
    List StreamPart → TraceStore → Nat → TraceStore × List Action × Nat
  | [], st, clock => (st, [], clock)
  | part :: rest, st, clock =>
    let r1 := processPart traceId st part clock
    let r2 := processParts traceId rest r1.1 (clock + 1)
    (r2.1, r1.2 ++ r2.2.1, r2.2.2)

/-- The `start` callback of the route's `ReadableStream`: iterates the
stream parts (all of them, or only those before an injected iteration
error), appends a bare `tool-error` event in the catch branch when an error
was thrown, and in the `finally` block finishes the trace, closes the
controller, and stops the sandbox (stop failures are swallowed). `errAt`
gives the number of parts delivered before the throw and the error message. -/
def streamStartRun (traceId : String) (parts : List StreamPart)
    (errAt : Option (Nat × String)) (st : TraceStore) (clock : Nat) :
    TraceStore × List Action :=
  let delivered := match errAt with
    | some (k, _) => parts.take k
    | none => parts
  let r := processParts traceId delivered st clock
  let afterCatch : TraceStore × List Action × Nat :=
    match errAt with
    | some (_, msg) =>
      (appendTraceEvent r.1 traceId (.toolError none none msg r.2.2),
       r.2.1 ++ [Action.traceAppend traceId], r.2.2 + 1)
    | none => r
  (finishTrace afterCatch.1 traceId afterCatch.2.2,
   afterCatch.2.1 ++ [Action.traceFinish traceId, Action.streamClose, Action.sandboxStop])

/-- The `cancel` callback of the route's `ReadableStream`: finish the trace,
stop the sandbox (stop failures are swallowed). -/
def streamCancelRun (traceId : String) (st : TraceStore) (clock : Nat) :
    TraceStore × List Action :=
  (finishTrace st traceId clock, [Action.traceFinish traceId, Action.sandboxStop])

/-- Whether `Sandbox.create` succeeded (yielding a sandbox id) or threw. -/
inductive SandboxOutcome where
  | created (sandboxId : String)
  | createFailed (msg : String)

/-- Whether `agent.stream` (and everything else before the `ReadableStream`
is returned) succeeded, and if so which parts the full stream later yields
and whether iterating it throws. -/
inductive AgentOutcome where
  | streamed (parts : List StreamPart) (errAt : Option (Nat × String))
  | preStreamThrow (msg : String)

/-- Whether the caller consumes the returned stream to its end or cancels
it. -/
inductive Consumption where
  | consumed
  | cancelled

/-- Model of the `POST` handler: request validation, the credential check,
sandbox creation, trace start, and the streaming / error exit paths, each
mirroring the source's control flow. Returns the final trace store, the
observable actions in order, and the response. -/
def runPOST (body : Option JsValue) (hasApiKey : Bool) (traceId : String)
    (sb : SandboxOutcome) (agent : AgentOutcome) (consumer : Consumption)
    (st : TraceStore) (clock : Nat) : TraceStore × List Action × RouteResponse :=
  match parseRequest body with
  | none =>
    (st, [], ⟨400, some "Invalid request. Expected \x7b prompt: string \x7d.", false⟩)
  | some prompt =>
    if hasApiKey = false then
      (st, [], ⟨500, some "Missing AI_GATEWAY_API_KEY. Set it in your env first.", false⟩)
    else
      match sb with
      | .createFailed _ =>
        (finishTrace st traceId clock,
         [Action.sandboxCreate false, Action.traceFinish traceId],
         ⟨500, some "Agent failed to run in sandbox.", false⟩)
      | .created sandboxId =>
        let st1 := startTrace st traceId prompt "openai/gpt-5-nano" sandboxId clock
        match agent with
        | .preStreamThrow _ =>
          (finishTrace st1 traceId (clock + 1),
           [Action.sandboxCreate true, Action.traceStart traceId,
            Action.traceFinish traceId, Action.sandboxStop],
           ⟨500, some "Agent failed to run in sandbox.", false⟩)
        | .streamed parts errAt =>
          match consumer with
          | .consumed =>
            let r := streamStartRun traceId parts errAt st1 (clock + 1)
            (r.1, Action.sandboxCreate true :: Action.traceStart traceId :: r.2,
             ⟨200, none, true⟩)
          | .cancelled =>
            let r := streamCancelRun traceId st1 (clock + 1)
            (r.1, Action.sandboxCreate true :: Action.traceStart traceId :: r.2,
             ⟨200, none, true⟩)

theorem processPart_no_stop (traceId : String) (st : TraceStore) (part : StreamPart)
    (now : Nat) : Action.sandboxStop ∉ (processPart traceId st part now).2 := by
  cases part <;> simp [processPart]

theorem processParts_no_stop (traceId : String) (parts : List StreamPart)
    (st : TraceStore) (clock : Nat) :
    Action.sandboxStop ∉ (processParts traceId parts st clock).2.1 := by
  induction parts generalizing st clock with
  | nil => simp [processParts]
  | cons part rest ih =>
    simp only [processParts, List.mem_append]
    rintro (hmem | hmem)
    · exact processPart_no_stop traceId st part clock hmem
    · exact ih _ _ hmem

theorem streamStartRun_stop_count (traceId : String) (parts : List StreamPart)
    (errAt : Option (Nat × String)) (st : TraceStore) (clock : Nat) :
    List.count Action.sandboxStop (streamStartRun traceId parts errAt st clock).2 = 1 := by
  unfold streamStartRun
  rcases errAt with _ | ⟨k, msg⟩ <;>
    simp [List.count_append, List.count_cons,
      List.count_eq_zero.mpr (processParts_no_stop traceId _ st clock)]

theorem streamCancelRun_stop_count (traceId : String) (st : TraceStore) (clock : Nat) :
    List.count Action.sandboxStop (streamCancelRun traceId st clock).2 = 1 := by
  simp [streamCancelRun]

/-- C1: in every execution of the POST handler in which the sandbox was
successfully created, the sandbox is stopped exactly once, on every exit
path: normal completion of the event stream, an error thrown while
iterating the stream, an error thrown before streaming began, and
caller-initiated cancellation of the response stream. -/
theorem sandbox_stopped_on_every_exit (body : Option JsValue) (hasApiKey : Bool)
    (traceId sandboxId : String) (agent : AgentOutcome) (consumer : Consumption)
    (st : TraceStore) (clock : Nat)
    (hmem : Action.sandboxCreate true ∈
      (runPOST body hasApiKey traceId (SandboxOutcome.created sandboxId)
        agent consumer st clock).2.1) :
    List.count Action.sandboxStop
      (runPOST body hasApiKey traceId (SandboxOutcome.created sandboxId)
        agent consumer st clock).2.1 = 1 := by
  rcases hp : parseRequest body with _ | prompt
  · simp [runPOST, hp] at hmem
  · cases hk : hasApiKey
    · simp [runPOST, hp, hk] at hmem
    · cases agent with
      | preStreamThrow msg => simp [runPOST, hp, hk, List.count_cons]
      | streamed parts errAt =>
        cases consumer with
        | consumed =>
          simp [runPOST, hp, hk, List.count_cons, streamStartRun_stop_count]
        | cancelled =>
          simp [runPOST, hp, hk, List.count_cons, streamCancelRun_stop_count]

/-- Witness for `sandbox_stopped_on_every_exit`: a valid request whose
stream completes normally. -/
theorem sandbox_stopped_on_every_exit_witness :
    List.count Action.sandboxStop
      (runPOST (some (JsValue.obj [("prompt", JsValue.str "hi")])) true "t"
        (SandboxOutcome.created "s") (AgentOutcome.streamed [] none)
        Consumption.consumed emptyStore 0).2.1 = 1 :=
  sandbox_stopped_on_every_exit (some (JsValue.obj [("prompt", JsValue.str "hi")])) true
    "t" "s" (AgentOutcome.streamed [] none) Consumption.consumed emptyStore 0
    (by decide)

/-- C8: a request whose body does not validate (not an object with a
`prompt` string whose trimmed length is 1 to 2000) gets a 400 with an error
body while no action runs — no sandbox is created, no trace is started, and
the store is untouched; a valid request with the gateway credential absent
gets a 500 with an error body, again with no action before sandbox
creation. -/
theorem post_rejects_invalid_and_unconfigured (body : Option JsValue) (hasApiKey : Bool)
    (traceId : String) (sb : SandboxOutcome) (agent : AgentOutcome)
    (consumer : Consumption) (st : TraceStore) (clock : Nat) :
    (parseRequest body = none →
      (runPOST body hasApiKey traceId sb agent consumer st clock).2.2.status = 400 ∧
      ((runPOST body hasApiKey traceId sb agent consumer st clock).2.2.errorBody).isSome
        = true ∧
      (runPOST body hasApiKey traceId sb agent consumer st clock).2.1 = [] ∧
      (runPOST body hasApiKey traceId sb agent consumer st clock).1 = st) ∧
    (∀ prompt, parseRequest body = some prompt → hasApiKey = false →
      (runPOST body hasApiKey traceId sb agent consumer st clock).2.2.status = 500 ∧
      ((runPOST body hasApiKey traceId sb agent consumer st clock).2.2.errorBody).isSome
        = true ∧
      (runPOST body hasApiKey traceId sb agent consumer st clock).2.1 = [] ∧
      (runPOST body hasApiKey traceId sb agent consumer st clock).1 = st) := by
  constructor
  · intro h
    simp [runPOST, h]
  · intro prompt h hk
    simp [runPOST, h, hk]

/-- Witness for `post_rejects_invalid_and_unconfigured`: a body that is not
an object yields a 400 with no actions. -/
theorem post_rejects_invalid_witness :
    (runPOST (some (JsValue.str "x")) true "t" (SandboxOutcome.created "s")
      (AgentOutcome.streamed [] none) Consumption.consumed emptyStore 0).2.2.status
      = 400 :=
  ((post_rejects_invalid_and_unconfigured (some (JsValue.str "x")) true "t"
    (SandboxOutcome.created "s") (AgentOutcome.streamed [] none) Consumption.consumed
    emptyStore 0).1 rfl).1

/-- C3 counterexample: a `fetchJson` invocation denied by the
network-safety filter raises an `Error` out of the tool's `execute`
(`Except.error`, the model of a thrown error) — the failure is not returned
as a string tool result, contradicting the claim that fetchJson failures
are represented as string results rather than thrown errors. -/
theorem fetchJson_throws_counterexample :
    fetchJsonToolExecute "http:" "169.254.169.254" "http://169.254.169.254/"
        (FetchOutcome.response 200 "\x7b\x7d" (some (JsValue.obj []))) =
      Except.error "Private or local addresses are not allowed." := by
  rfl

/-- C3 amended: every failing `fetchJson` invocation — filter denial,
timeout, non-2xx upstream status, body over 200000 characters, or a body
that does not parse as JSON — throws an `Error` with a human-readable
message out of the tool's `execute` (it is the surrounding agent framework,
outside this repository, that surfaces the thrown error to the model; the
route's stream loop records it as a `tool-error` trace event). -/
theorem fetchJson_failure_modes (protocol hostname href : String) (status : Nat)
    (bodyText : String) (parsedJson : Option JsValue)
    (hp : protocol = "http:" ∨ protocol = "https:") :
    (∀ outcome, isPrivateHostname hostname = true →
      fetchJsonToolExecute protocol hostname href outcome =
        Except.error "Private or local addresses are not allowed.") ∧
    (isPrivateHostname hostname = false →
      fetchJsonToolExecute protocol hostname href FetchOutcome.timeout =
        Except.error "The operation was aborted.") ∧
    (isPrivateHostname hostname = false → responseOk status = false →
      fetchJsonToolExecute protocol hostname href
          (FetchOutcome.response status bodyText parsedJson) =
        Except.error ("Request failed with status " ++ toString status ++ ".")) ∧
    (isPrivateHostname hostname = false → responseOk status = true →
      200000 < bodyText.length →
      fetchJsonToolExecute protocol hostname href
          (FetchOutcome.response status bodyText parsedJson) =
        Except.error "Response too large to parse safely.") ∧
    (isPrivateHostname hostname = false → responseOk status = true →
      bodyText.length ≤ 200000 → parsedJson = none →
      fetchJsonToolExecute protocol hostname href
          (FetchOutcome.response status bodyText parsedJson) =
        Except.error "Response was not valid JSON.") := by
  have hsch : ¬¬(protocol = "http:" ∨ protocol = "https:") := not_not_intro hp
  refine ⟨?_, ?_, ?_, ?_, ?_⟩
  · intro outcome hpriv
    simp [fetchJsonToolExecute, fetchJson, hsch, hpriv]
  · intro hpriv
    simp [fetchJsonToolExecute, fetchJson, hsch, hpriv]
  · intro hpriv hok
    simp [fetchJsonToolExecute, fetchJson, hsch, hpriv, hok]
  · intro hpriv hok hbig
    simp [fetchJsonToolExecute, fetchJson, hsch, hpriv, hok, hbig]
  · intro hpriv hok hsmall hnone
    simp [fetchJsonToolExecute, fetchJson, hsch, hpriv, hok, hnone,
      Nat.not_lt.mpr hsmall]

/-- Witness for `fetchJson_failure_modes`: a public hostname with a 404
upstream status yields the upstream-error throw. -/
theorem fetchJson_failure_modes_witness :
    fetchJsonToolExecute "https:" "api.example.com" "https://api.example.com/"
        (FetchOutcome.response 404 "nope" none) =
      Except.error ("Request failed with status " ++ toString 404 ++ ".") :=
  (fetchJson_failure_modes "https:" "api.example.com" "https://api.example.com/" 404
    "nope" none (Or.inr rfl)).2.2.1 (by decide) (by decide)

/-- C7: the `runInSandbox` tool maps the backend command results to string
results exactly as claimed: a requested install that exits non-zero yields
the install-failure string (not a thrown error); otherwise a non-zero exit
of the code run yields the execution-error string built from trimmed stderr
with the trimmed-stdout and generic fallbacks; exit 0 with nonempty trimmed
stdout yields the trimmed stdout; and exit 0 with empty trimmed stdout
yields the trimmed stderr with the fixed no-output fallback. -/
theorem runInSandbox_result_mapping (code : String) (packages : Option (List String))
    (npmInitResult npmInstallResult nodeResult : CommandResult) :
    (installRequested packages = true → npmInstallResult.exitCode ≠ 0 →
      runInSandboxExecute code packages npmInitResult npmInstallResult nodeResult =
        "Package install failed: " ++
          strOrElse (jsTrim npmInstallResult.stderr) "unknown error") ∧
    (installRequested packages = false ∨ npmInstallResult.exitCode = 0 →
      (nodeResult.exitCode ≠ 0 →
        runInSandboxExecute code packages npmInitResult npmInstallResult nodeResult =
          "Execution error: " ++ strOrElse (jsTrim nodeResult.stderr)
            (strOrElse (jsTrim nodeResult.stdout) "unknown error")) ∧
      (nodeResult.exitCode = 0 → jsTrim nodeResult.stdout ≠ "" →
        runInSandboxExecute code packages npmInitResult npmInstallResult nodeResult =
          jsTrim nodeResult.stdout) ∧
      (nodeResult.exitCode = 0 → jsTrim nodeResult.stdout = "" →
        runInSandboxExecute code packages npmInitResult npmInstallResult nodeResult =
          strOrElse (jsTrim nodeResult.stderr) "No output produced.")) := by
  constructor
  · intro hreq hfail
    rcases packages with _ | ⟨_ | ⟨p, ps⟩⟩ <;>
      simp [installRequested] at hreq <;>
      simp [runInSandboxExecute, hfail]
  · intro hok
    have hrun : runInSandboxExecute code packages npmInitResult npmInstallResult
        nodeResult = runNode nodeResult := by
      rcases packages with _ | ⟨_ | ⟨p, ps⟩⟩ <;>
        simp only [runInSandboxExecute] <;>
        first
          | rfl
          | (rcases hok with hok | hok
             · simp [installRequested] at hok
             · simp [hok])
    refine ⟨?_, ?_, ?_⟩
    · intro hne
      rw [hrun]
      simp [runNode, hne]
    · intro hz hsout
      rw [hrun]
      simp [runNode, hz, strOrElse, hsout]
    · intro hz hsout
      rw [hrun]
      simp [runNode, hz, strOrElse, hsout]

/-- Witness for `runInSandbox_result_mapping`: no install requested, exit 0
with stdout produces the trimmed stdout. -/
theorem runInSandbox_result_mapping_witness :
    runInSandboxExecute "console.log(42)" none ⟨0, "", ""⟩ ⟨0, "", ""⟩
        ⟨0, "42\n", ""⟩ = "42" :=
  ((runInSandbox_result_mapping "console.log(42)" none ⟨0, "", ""⟩ ⟨0, "", ""⟩
    ⟨0, "42\n", ""⟩).2 (Or.inl rfl)).2.1 rfl (by decide)

end SandboxPoc
